import Mathlib

/-!
Verification of the `simply` register-machine interpreter.

The development shallowly embeds the two source files of the interpreter:

* `exec.rs` — the execution engine: machine state (a map from register
  names to 32-bit integers plus an execution pointer), per-instruction
  dispatch, and the fetch/execute loop.
* `parse.rs` — the nom-combinator grammar: register identifiers, the three
  instruction shapes, and the signed 32-bit literal parser.

Machine integers are modelled as `Int` (no claim under verification
involves register-arithmetic overflow); where the 32-bit range matters —
the literal parser — the bounds are explicit.  Rust's `Result` is an
explicit result type; a `.unwrap()` on a missing key is modelled as the
distinct outcome `panicked`, since a panic is observably different from a
typed error.  Output written with `println!`/`print!` is accumulated in
the machine state.
-/

namespace Simply

/-! ### Instruction model

`exec.rs` dispatches on thirteen variants (`Set`, `Cpy`, `Add`, `Sub`,
`Out`, `Jmp`, `Jwz`, `Jnz`, `Jwn`, `Jwp`, `Gth`, `Lth`, `Chr`); the
instruction type carries exactly the operands each arm uses. -/

inductive Instruction where
  | Set (register : String) (value : Int)
  | Cpy (register1 register2 : String)
  | Add (register1 register2 : String)
  | Sub (register1 register2 : String)
  | Out (register : String)
  | Jmp (register : String)
  | Jwz (register1 register2 : String)
  | Jnz (register1 register2 : String)
  | Jwn (register1 register2 : String)
  | Jwp (register1 register2 : String)
  | Gth (register1 register2 : String)
  | Lth (register1 register2 : String)
  | Chr (register : String)
  deriving DecidableEq, Repr

/-! ### Machine state

`HashMap<String, i32>` is modelled as an association list read through
`memGet` (first match wins) and written through `memSet` (shadowing
insert) — extensionally the map operations `get`/`insert`/`get_mut`. -/

abbrev Memory : Type := List (String × Int)

def memGet (m : Memory) (k : String) : Option Int :=
  match m with
  | [] => none
  | (k2, v) :: rest => if k2 = k then some v else memGet rest k

def memSet (m : Memory) (k : String) (v : Int) : Memory :=
  (k, v) :: m

structure Program where
  memory : Memory
  pointer : Nat
  output : List Char
  deriving DecidableEq, Repr

/-- The empty machine state (`Program::default()`). -/
def Program.default : Program :=
  { memory := [], pointer := 0, output := [] }

inductive ExecErrorKind where
  | UninitializedRegister (name : String)
  | NegativeExecutionPointer
  deriving DecidableEq, Repr

/-- Outcome of executing one instruction: `ok` (the `Ok(())` path, with the
updated state), `err` (a returned `ExecError`), or `panicked` (an
`.unwrap()` on an absent key). -/
inductive ExecResult where
  | ok (p : Program) : ExecResult
  | err (e : ExecErrorKind) : ExecResult
  | panicked : ExecResult
  deriving DecidableEq, Repr

/-- Rust's `char::from_u32`: valid for code points below `0x110000`
excluding the surrogate range `0xD800..=0xDFFF`. -/
def validScalar (n : Nat) : Bool :=
  (n < 0xD800) || (0xE000 ≤ n && n < 0x110000)

/-- `u32::try_from(value).ok().and_then(char::from_u32)` on an `i32`
value: succeeds exactly when the value is non-negative and a valid
Unicode scalar. -/
def charFromValue (v : Int) : Option Char :=
  if 0 ≤ v ∧ validScalar v.toNat then
    some (Char.ofNat v.toNat)
  else
    none

/-- `Execute::execute` from `exec.rs`, arm by arm.  `println!` appends the
decimal rendering plus a newline; `print!` appends the character. -/
def execute (i : Instruction) (program : Program) : ExecResult :=
  match i with
  | .Set register value =>
      .ok { program with
              memory := memSet program.memory register value,
              pointer := program.pointer + 1 }
  | .Cpy register1 register2 =>
      match memGet program.memory register1 with
      | none => .panicked
      | some value =>
          .ok { program with
                  memory := memSet program.memory register2 value,
                  pointer := program.pointer + 1 }
  | .Add register1 register2 =>
      match memGet program.memory register1 with
      | none => .err (.UninitializedRegister register1)
      | some value =>
          match memGet program.memory register2 with
          | none => .err (.UninitializedRegister register2)
          | some addTo =>
              .ok { program with
                      memory := memSet program.memory register2 (addTo + value),
                      pointer := program.pointer + 1 }
  | .Sub register1 register2 =>
      match memGet program.memory register1 with
      | none => .err (.UninitializedRegister register1)
      | some value =>
          match memGet program.memory register2 with
          | none => .err (.UninitializedRegister register2)
          | some subFrom =>
              .ok { program with
                      memory := memSet program.memory register2 (subFrom - value),
                      pointer := program.pointer + 1 }
  | .Out register =>
      match memGet program.memory register with
      | none => .err (.UninitializedRegister register)
      | some value =>
          .ok { program with
                  output := program.output ++ (toString value).data ++ ['\n'],
                  pointer := program.pointer + 1 }
  | .Jmp register =>
      match memGet program.memory register with
      | none => .err (.UninitializedRegister register)
      | some target =>
          if target < 1 then
            .err .NegativeExecutionPointer
          else
            .ok { program with pointer := (target - 1).toNat }
  | .Jwz register1 register2 =>
      match memGet program.memory register1 with
      | none => .panicked
      | some value =>
          if value = 0 then
            match memGet program.memory register2 with
            | none => .err (.UninitializedRegister register2)
            | some target =>
                if target < 1 then
                  .err .NegativeExecutionPointer
                else
                  .ok { program with pointer := (target - 1).toNat }
          else
            .ok { program with pointer := program.pointer + 1 }
  | .Jnz register1 register2 =>
      match memGet program.memory register1 with
      | none => .panicked
      | some value =>
          if value = 0 then
            .ok { program with pointer := program.pointer + 1 }
          else
            match memGet program.memory register2 with
            | none => .err (.UninitializedRegister register2)
            | some target =>
                if target < 1 then
                  .err .NegativeExecutionPointer
                else
                  .ok { program with pointer := (target - 1).toNat }
  | .Jwn register1 register2 =>
      match memGet program.memory register1 with
      | none => .panicked
      | some value =>
          if value < 0 then
            match memGet program.memory register2 with
            | none => .err (.UninitializedRegister register2)
            | some target =>
                if target < 1 then
                  .err .NegativeExecutionPointer
                else
                  .ok { program with pointer := (target - 1).toNat }
          else
            .ok { program with pointer := program.pointer + 1 }
  | .Jwp register1 register2 =>
      match memGet program.memory register1 with
      | none => .panicked
      | some value =>
          if value > 0 then
            match memGet program.memory register2 with
            | none => .err (.UninitializedRegister register2)
            | some target =>
                if target < 1 then
                  .err .NegativeExecutionPointer
                else
                  .ok { program with pointer := (target - 1).toNat }
          else
            .ok { program with pointer := program.pointer + 1 }
  | .Gth register1 register2 =>
      match memGet program.memory register1 with
      | none => .err (.UninitializedRegister register1)
      | some value =>
          match memGet program.memory register2 with
          | none => .err (.UninitializedRegister register2)
          | some target =>
              .ok { program with
                      memory := memSet program.memory register2
                        (if value > target then 1 else -1),
                      pointer := program.pointer + 1 }
  | .Lth register1 register2 =>
      match memGet program.memory register1 with
      | none => .err (.UninitializedRegister register1)
      | some value =>
          match memGet program.memory register2 with
          | none => .err (.UninitializedRegister register2)
          | some target =>
              .ok { program with
                      memory := memSet program.memory register2
                        (if value < target then 1 else -1),
                      pointer := program.pointer + 1 }
  | .Chr register =>
      match memGet program.memory register with
      | none => .err (.UninitializedRegister register)
      | some value =>
          .ok { program with
                  output := program.output ++ [(charFromValue value).getD '·'],
                  pointer := program.pointer + 1 }

/-- Outcome of the fetch/execute loop `Program::run`: `ok` carries the
final state and the number of instruction dispatches performed; `err` and
`panicked` propagate from `execute`; `fuelOut` marks loops longer than
the supplied fuel (the Rust loop has no fuel and may diverge). -/
inductive RunResult where
  | ok (final : Program) (steps : Nat) : RunResult
  | err (e : ExecErrorKind) : RunResult
  | panicked : RunResult
  | fuelOut : RunResult
  deriving DecidableEq, Repr

/-- `Program::run`: while the pointer is a valid index, execute the
instruction there; when it no longer is, return `Ok(())`.  Fuel bounds the
number of iterations only — every terminating execution of the Rust loop
is reproduced exactly by any sufficiently large fuel. -/
def run (fuel : Nat) (instructions : List Instruction) (p : Program) : RunResult :=
  match fuel with
  | 0 =>
      if p.pointer < instructions.length then .fuelOut else .ok p 0
  | fuel + 1 =>
      if h : p.pointer < instructions.length then
        match execute (instructions.get ⟨p.pointer, h⟩) p with
        | .ok p2 =>
            match run fuel instructions p2 with
            | .ok pf n => .ok pf (n + 1)
            | r => r
        | .err e => .err e
        | .panicked => .panicked
      else
        .ok p 0

/-! ### Grammar (`parse.rs`)

The nom combinators are embedded over `List Char`: a parser returns
`some (rest, value)` on success (nom's `IResult` pair) and `none` on
error.  All parsers used here are `complete`-flavoured. -/

def NomParser (α : Type) : Type := List Char → Option (List Char × α)

/-- `nom::bytes::complete::tag`. -/
def ptag (s : String) : NomParser (List Char) := fun input =>
  if input.take s.data.length = s.data then
    some (input.drop s.data.length, s.data)
  else
    none

/-- Shared shape of nom's `xxx1` character-class parsers: the longest
(nonempty) prefix satisfying the class. -/
def takeWhile1 (p : Char → Bool) : NomParser (List Char) := fun input =>
  let taken := input.takeWhile p
  if taken = [] then none else some (input.drop taken.length, taken)

/-- `nom::character::complete::alpha1` (ASCII letters). -/
def alpha1 : NomParser (List Char) :=
  takeWhile1 Char.isAlpha

/-- `nom::character::complete::alphanumeric1` (ASCII letters and digits). -/
def alphanumeric1 : NomParser (List Char) :=
  takeWhile1 Char.isAlphanum

def isMultispace (c : Char) : Bool :=
  c = ' ' || c = '\t' || c = '\r' || c = '\n'

/-- `nom::character::complete::multispace0`. -/
def multispace0 : NomParser (List Char) := fun input =>
  some (input.dropWhile isMultispace, input.takeWhile isMultispace)

/-- `nom::branch::alt` on two alternatives; nested right for longer tuples,
preserving nom's left-to-right order. -/
def palt (p q : NomParser α) : NomParser α := fun input =>
  match p input with
  | some r => some r
  | none => q input

/-- `nom::sequence::pair` / binary step of `tuple`. -/
def ppair (p : NomParser α) (q : NomParser β) : NomParser (α × β) := fun input =>
  match p input with
  | none => none
  | some (r1, a) =>
      match q r1 with
      | none => none
      | some (r2, b) => some (r2, (a, b))

/-- `nom::sequence::terminated`. -/
def pterminated (p : NomParser α) (q : NomParser β) : NomParser α := fun input =>
  match p input with
  | none => none
  | some (r1, a) =>
      match q r1 with
      | none => none
      | some (r2, _) => some (r2, a)

/-- `nom::combinator::all_consuming`. -/
def pAllConsuming (p : NomParser α) : NomParser α := fun input =>
  match p input with
  | some ([], a) => some ([], a)
  | _ => none

/-- `nom::combinator::recognize`: run the inner parser and return the
consumed prefix of the input. -/
def precognize (p : NomParser α) : NomParser (List Char) := fun input =>
  match p input with
  | none => none
  | some (rest, _) => some (rest, input.take (input.length - rest.length))

/-- One iteration step budgeted by fuel.  nom's `many0_count` errors when
an iteration succeeds without consuming input; every success of the
parsers used under it consumes at least one character, so fuel equal to
the input length reproduces the loop exactly. -/
def many0CountAux (p : NomParser α) : Nat → NomParser Nat
  | 0 => fun input => some (input, 0)
  | fuel + 1 => fun input =>
      match p input with
      | none => some (input, 0)
      | some (rest, _) =>
          if rest.length < input.length then
            match many0CountAux p fuel rest with
            | none => none
            | some (r2, n) => some (r2, n + 1)
          else
            none

/-- `nom::multi::many0_count`. -/
def many0Count (p : NomParser α) : NomParser Nat := fun input =>
  many0CountAux p input.length input

/-- `register` from `parse.rs`:
`recognize(pair(alpha1, many0_count(alt((alphanumeric1, tag("_"))))))`. -/
def register : NomParser (List Char) :=
  precognize (ppair alpha1 (many0Count (palt alphanumeric1 (ptag "_"))))

def one_register_keyword : NomParser (List Char) :=
  palt (ptag "out") (ptag "jmp")

def one_register_one_value_keyword : NomParser (List Char) :=
  ptag "set"

def two_register_keyword : NomParser (List Char) :=
  palt (ptag "cpy") (palt (ptag "add") (palt (ptag "sub")
    (palt (ptag "jwz") (palt (ptag "jnz") (palt (ptag "gth") (ptag "lth"))))))

def digitVal (c : Char) : Int :=
  Int.ofNat (c.toNat - 48)

/-- Digit-accumulation loop of `nom::character::complete::i32`, positive
sign: checked `value * 10 + digit`, error past `i32::MAX`. -/
def i32CheckedPos : List Char → Int → Option Int
  | [], acc => some acc
  | c :: cs, acc =>
      let acc2 := acc * 10 + digitVal c
      if 2147483647 < acc2 then none else i32CheckedPos cs acc2

/-- Digit-accumulation loop of `nom::character::complete::i32`, negative
sign: checked `value * 10 - digit`, error past `i32::MIN`. -/
def i32CheckedNeg : List Char → Int → Option Int
  | [], acc => some acc
  | c :: cs, acc =>
      let acc2 := acc * 10 - digitVal c
      if acc2 < -2147483648 then none else i32CheckedNeg cs acc2

/-- `nom::character::complete::i32`: optional `+`/`-` sign, then one or
more ASCII digits, accumulated with overflow checks — an out-of-range
literal is a parse error, not a wrapped value. -/
def nomI32 : NomParser Int := fun input =>
  let sr : Bool × List Char :=
    match input with
    | [] => (true, [])
    | c :: cs =>
        if c = '+' then (true, cs)
        else if c = '-' then (false, cs)
        else (true, input)
  let digits := sr.2.takeWhile Char.isDigit
  if digits = [] then none
  else
    match (if sr.1 then i32CheckedPos digits 0 else i32CheckedNeg digits 0) with
    | none => none
    | some v => some (sr.2.drop digits.length, v)

/-- `From<(&str, &str)> for Instruction` — the keyword strings the
one-register keyword parser can produce; other keywords are the
`unreachable!` arm. -/
def instrFromOneReg (kw reg : List Char) : Option Instruction :=
  if kw = "out".data then some (.Out (String.mk reg))
  else if kw = "jmp".data then some (.Jmp (String.mk reg))
  else none

/-- `From<(&str, &str, i32)> for Instruction`. -/
def instrFromRegVal (kw reg : List Char) (val : Int) : Option Instruction :=
  if kw = "set".data then some (.Set (String.mk reg) val)
  else none

/-- `From<(&str, &str, &str)> for Instruction`. -/
def instrFromTwoReg (kw reg1 reg2 : List Char) : Option Instruction :=
  if kw = "cpy".data then some (.Cpy (String.mk reg1) (String.mk reg2))
  else if kw = "add".data then some (.Add (String.mk reg1) (String.mk reg2))
  else if kw = "sub".data then some (.Sub (String.mk reg1) (String.mk reg2))
  else if kw = "jwz".data then some (.Jwz (String.mk reg1) (String.mk reg2))
  else if kw = "jnz".data then some (.Jnz (String.mk reg1) (String.mk reg2))
  else if kw = "gth".data then some (.Gth (String.mk reg1) (String.mk reg2))
  else if kw = "lth".data then some (.Lth (String.mk reg1) (String.mk reg2))
  else none

/-- `into(...)`: map the parsed tuple through the `From` conversion. -/
def pmapOpt (p : NomParser α) (f : α → Option β) : NomParser β := fun input =>
  match p input with
  | none => none
  | some (rest, a) =>
      match f a with
      | none => none
      | some b => some (rest, b)

/-- `one_register_instruction` from `parse.rs`. -/
def one_register_instruction : NomParser Instruction :=
  pmapOpt (pAllConsuming (ppair
    (pterminated one_register_keyword multispace0)
    (pterminated register multispace0)))
    (fun x => instrFromOneReg x.1 x.2)

/-- `one_register_one_value_instruction` from `parse.rs`. -/
def one_register_one_value_instruction : NomParser Instruction :=
  pmapOpt (pAllConsuming (ppair
    (pterminated one_register_one_value_keyword multispace0)
    (ppair (pterminated register multispace0)
           (pterminated nomI32 multispace0))))
    (fun x => instrFromRegVal x.1 x.2.1 x.2.2)

/-- `two_register_instruction` from `parse.rs`. -/
def two_register_instruction : NomParser Instruction :=
  pmapOpt (pAllConsuming (ppair
    (pterminated two_register_keyword multispace0)
    (ppair (pterminated register multispace0)
           (pterminated register multispace0))))
    (fun x => instrFromTwoReg x.1 x.2.1 x.2.2)

/-- `instruction` from `parse.rs`: the three shapes tried in order. -/
def instruction : NomParser Instruction :=
  palt one_register_instruction
    (palt one_register_one_value_instruction two_register_instruction)

/-- `TryFrom<&str> for Instruction`: parse one full line. -/
def parseLine (s : String) : Option Instruction :=
  match instruction s.data with
  | none => none
  | some (_, i) => some i

/-! ### Basic facts about the machine state -/

theorem memGet_memSet_self (m : Memory) (k : String) (v : Int) :
    memGet (memSet m k v) k = some v := by
  simp [memGet, memSet]

/-! ### Claim theorems -/

/-- C1: the claim requires every register read of every opcode to yield the
typed `UninitializedRegister` error on an unset register, never a panic.
The code violates this: the source-register read of `cpy` and the
condition-register reads of `jwz`, `jnz`, `jwn`, `jwp` use an unchecked
`.unwrap()`, which panics on an unset register, while the checked opcodes
(here `add` as a sample) do return the typed error. -/
theorem cpy_and_branch_condition_reads_crash :
    execute (Instruction.Cpy "a" "b") Program.default = ExecResult.panicked ∧
    execute (Instruction.Jwz "a" "b") Program.default = ExecResult.panicked ∧
    execute (Instruction.Jnz "a" "b") Program.default = ExecResult.panicked ∧
    execute (Instruction.Jwn "a" "b") Program.default = ExecResult.panicked ∧
    execute (Instruction.Jwp "a" "b") Program.default = ExecResult.panicked ∧
    execute (Instruction.Add "a" "b") Program.default =
      ExecResult.err (ExecErrorKind.UninitializedRegister "a") := by
  decide

/-- C2: the claim requires a grammar rule for every opcode dispatched by
the execution engine, in particular that `jwn`, `jwp` and `chr` lines
parse.  The grammar of `parse.rs` has no rule for any of the three (its
keyword lists stop at the ten other opcodes), so well-formed `jwn`/`jwp`/
`chr` lines are syntax errors, while the neighbouring `jwz` line parses. -/
theorem jwn_jwp_chr_have_no_grammar_rule :
    parseLine "jwn a b" = none ∧
    parseLine "jwp a b" = none ∧
    parseLine "chr c" = none ∧
    parseLine "jwz a b" = some (Instruction.Jwz "a" "b") ∧
    parseLine "set c 65" = some (Instruction.Set "c" 65) := by
  decide

/-- C3: with both operands initialized, `gth` stores exactly `1` into `r2`
when `value(r1) > value(r2)` and `-1` otherwise, `lth` stores `1` when
`value(r1) < value(r2)` and `-1` otherwise (both against `r2`'s value
before the instruction, advancing the pointer by 1); with `r2` unset,
both fail with `UninitializedRegister r2` instead of creating it. -/
theorem gth_lth_spec (prog : Program) (r1 r2 : String) (v1 : Int)
    (h1 : memGet prog.memory r1 = some v1) :
    (∀ v2, memGet prog.memory r2 = some v2 →
      execute (Instruction.Gth r1 r2) prog =
        ExecResult.ok { prog with
          memory := memSet prog.memory r2 (if v1 > v2 then 1 else -1),
          pointer := prog.pointer + 1 } ∧
      execute (Instruction.Lth r1 r2) prog =
        ExecResult.ok { prog with
          memory := memSet prog.memory r2 (if v1 < v2 then 1 else -1),
          pointer := prog.pointer + 1 } ∧
      memGet (memSet prog.memory r2 (if v1 > v2 then 1 else -1)) r2 =
        some (if v1 > v2 then 1 else -1) ∧
      memGet (memSet prog.memory r2 (if v1 < v2 then 1 else -1)) r2 =
        some (if v1 < v2 then 1 else -1)) ∧
    (memGet prog.memory r2 = none →
      execute (Instruction.Gth r1 r2) prog =
        ExecResult.err (ExecErrorKind.UninitializedRegister r2) ∧
      execute (Instruction.Lth r1 r2) prog =
        ExecResult.err (ExecErrorKind.UninitializedRegister r2)) := by
  constructor
  · intro v2 h2
    refine ⟨?_, ?_, memGet_memSet_self _ _ _, memGet_memSet_self _ _ _⟩ <;>
      simp [execute, h1, h2]
  · intro h2
    constructor <;> simp [execute, h1, h2]

theorem gth_lth_spec_witness :
    execute (Instruction.Gth "a" "b")
        { memory := [("a", 3), ("b", 3)], pointer := 0, output := [] } =
      ExecResult.ok { memory := [("b", -1), ("a", 3), ("b", 3)],
                      pointer := 1, output := [] } ∧
    execute (Instruction.Gth "a" "b")
        { memory := [("a", 3)], pointer := 0, output := [] } =
      ExecResult.err (ExecErrorKind.UninitializedRegister "b") := by
  have h := gth_lth_spec
    { memory := [("a", 3), ("b", 3)], pointer := 0, output := [] }
    "a" "b" 3 (by decide)
  have h2 := gth_lth_spec
    { memory := [("a", 3)], pointer := 0, output := [] }
    "a" "b" 3 (by decide)
  exact ⟨(h.1 3 (by decide)).1, (h2.2 (by decide)).1⟩

/-- C4: `jmp r` with `r` initialized fails with `NegativeExecutionPointer`
when `value(r) < 1`, leaving no clamped pointer behind; when
`value(r) ≥ 1` it overwrites the pointer with `value(r) - 1`, so
`value(r) = 1` targets index 0. -/
theorem jmp_spec (prog : Program) (r : String) (v : Int)
    (h : memGet prog.memory r = some v) :
    (v < 1 → execute (Instruction.Jmp r) prog =
        ExecResult.err ExecErrorKind.NegativeExecutionPointer) ∧
    (1 ≤ v → execute (Instruction.Jmp r) prog =
        ExecResult.ok { prog with pointer := (v - 1).toNat }) ∧
    (v = 1 → execute (Instruction.Jmp r) prog =
        ExecResult.ok { prog with pointer := 0 }) := by
  refine ⟨fun hv => ?_, fun hv => ?_, fun hv => ?_⟩
  · simp [execute, h, hv]
  · simp [execute, h, not_lt.mpr hv]
  · subst hv
    simp [execute, h]

theorem jmp_spec_witness :
    execute (Instruction.Jmp "a")
        { memory := [("a", 0)], pointer := 3, output := [] } =
      ExecResult.err ExecErrorKind.NegativeExecutionPointer ∧
    execute (Instruction.Jmp "a")
        { memory := [("a", 1)], pointer := 3, output := [] } =
      ExecResult.ok { memory := [("a", 1)], pointer := 0, output := [] } := by
  exact ⟨(jmp_spec _ "a" 0 (by decide)).1 (by decide),
         (jmp_spec _ "a" 1 (by decide)).2.2 rfl⟩

/-- C8: `chr r` with `r` initialized emits exactly one character and no
newline: the Unicode scalar with code point `value(r)` when that value is
non-negative and a valid scalar, and the placeholder `·` otherwise
(negative values, surrogates, out-of-range code points); in particular
`set c 65` / `chr c` outputs exactly `A`. -/
theorem chr_spec (prog : Program) (r : String) (v : Int)
    (h : memGet prog.memory r = some v) :
    execute (Instruction.Chr r) prog =
      ExecResult.ok { prog with
        output := prog.output ++
          [if 0 ≤ v ∧ validScalar v.toNat then Char.ofNat v.toNat else '·'],
        pointer := prog.pointer + 1 } ∧
    run 2 [Instruction.Set "c" 65, Instruction.Chr "c"] Program.default =
      RunResult.ok { memory := [("c", 65)], pointer := 2, output := ['A'] } 2 := by
  constructor
  · by_cases hv : 0 ≤ v ∧ validScalar v.toNat <;>
      simp [execute, h, charFromValue, hv]
  · decide

theorem chr_spec_witness :
    execute (Instruction.Chr "c")
        { memory := [("c", 55296)], pointer := 0, output := [] } =
      ExecResult.ok { memory := [("c", 55296)], pointer := 1, output := ['·'] } ∧
    execute (Instruction.Chr "c")
        { memory := [("c", -7)], pointer := 0, output := [] } =
      ExecResult.ok { memory := [("c", -7)], pointer := 1, output := ['·'] } ∧
    execute (Instruction.Chr "c")
        { memory := [("c", 66)], pointer := 0, output := [] } =
      ExecResult.ok { memory := [("c", 66)], pointer := 1, output := ['B'] } := by
  refine ⟨?_, ?_, ?_⟩
  · have h := (chr_spec { memory := [("c", 55296)], pointer := 0, output := [] }
      "c" 55296 (by decide)).1
    simpa using h
  · have h := (chr_spec { memory := [("c", -7)], pointer := 0, output := [] }
      "c" (-7) (by decide)).1
    simpa using h
  · have h := (chr_spec { memory := [("c", 66)], pointer := 0, output := [] }
      "c" 66 (by decide)).1
    simpa using h

/-- Common behaviour of the four conditional branches at a given state:
when `taken` holds, the target register is read — unset yields
`UninitializedRegister`, a target below 1 yields
`NegativeExecutionPointer`, and otherwise the pointer becomes
`target - 1`; when `taken` fails, the pointer advances by exactly 1 with
no condition whatsoever on the target register. -/
def branchSpec (prog : Program) (i : Instruction) (r2 : String) (taken : Prop) : Prop :=
  (taken →
    (memGet prog.memory r2 = none →
      execute i prog = ExecResult.err (ExecErrorKind.UninitializedRegister r2)) ∧
    (∀ t, memGet prog.memory r2 = some t →
      (t < 1 → execute i prog = ExecResult.err ExecErrorKind.NegativeExecutionPointer) ∧
      (1 ≤ t → execute i prog = ExecResult.ok { prog with pointer := (t - 1).toNat }))) ∧
  (¬ taken → execute i prog = ExecResult.ok { prog with pointer := prog.pointer + 1 })

/-- C5: with the condition register `r1` initialized to `v1`, `jwz` takes
its branch exactly when `v1 = 0`, `jnz` exactly when `v1 ≠ 0`, `jwn`
exactly when `v1 < 0`, and `jwp` exactly when `v1 > 0`; in each case the
taken/not-taken behaviour is `branchSpec`: not taken advances the pointer
by 1 without reading `r2`, taken reads `r2` with `UninitializedRegister`
on absence, `NegativeExecutionPointer` on a target below 1, and pointer
`:= target - 1` otherwise. -/
theorem branch_spec (prog : Program) (r1 r2 : String) (v1 : Int)
    (h1 : memGet prog.memory r1 = some v1) :
    branchSpec prog (Instruction.Jwz r1 r2) r2 (v1 = 0) ∧
    branchSpec prog (Instruction.Jnz r1 r2) r2 (v1 ≠ 0) ∧
    branchSpec prog (Instruction.Jwn r1 r2) r2 (v1 < 0) ∧
    branchSpec prog (Instruction.Jwp r1 r2) r2 (0 < v1) := by
  refine ⟨⟨fun ht => ⟨fun h2 => ?_, fun t h2 => ⟨fun hlt => ?_, fun hge => ?_⟩⟩,
            fun ht => ?_⟩,
          ⟨fun ht => ⟨fun h2 => ?_, fun t h2 => ⟨fun hlt => ?_, fun hge => ?_⟩⟩,
            fun ht => ?_⟩,
          ⟨fun ht => ⟨fun h2 => ?_, fun t h2 => ⟨fun hlt => ?_, fun hge => ?_⟩⟩,
            fun ht => ?_⟩,
          ⟨fun ht => ⟨fun h2 => ?_, fun t h2 => ⟨fun hlt => ?_, fun hge => ?_⟩⟩,
            fun ht => ?_⟩⟩
  · simp [execute, h1, h2, ht]
  · simp [execute, h1, h2, ht, hlt]
  · simp [execute, h1, h2, ht, not_lt.mpr hge]
  · simp [execute, h1, ht]
  · simp [execute, h1, h2, ht]
  · simp [execute, h1, h2, ht, hlt]
  · simp [execute, h1, h2, ht, not_lt.mpr hge]
  · simp [execute, h1, not_not.mp ht]
  · simp [execute, h1, h2, ht]
  · simp [execute, h1, h2, ht, hlt]
  · simp [execute, h1, h2, ht, not_lt.mpr hge]
  · simp [execute, h1, ht]
  · simp [execute, h1, h2, ht]
  · simp [execute, h1, h2, ht, hlt]
  · simp [execute, h1, h2, ht, not_lt.mpr hge]
  · simp [execute, h1, ht]

theorem branch_spec_witness :
    execute (Instruction.Jwz "a" "b")
        { memory := [("a", 0), ("b", 7)], pointer := 0, output := [] } =
      ExecResult.ok { memory := [("a", 0), ("b", 7)], pointer := 6, output := [] } ∧
    execute (Instruction.Jwp "a" "b")
        { memory := [("a", -2)], pointer := 4, output := [] } =
      ExecResult.ok { memory := [("a", -2)], pointer := 5, output := [] } := by
  have h := branch_spec { memory := [("a", 0), ("b", 7)], pointer := 0, output := [] }
    "a" "b" 0 (by decide)
  have h2 := branch_spec { memory := [("a", -2)], pointer := 4, output := [] }
    "a" "b" (-2) (by decide)
  exact ⟨((h.1.1 rfl).2 7 (by decide)).2 (by decide),
         h2.2.2.2.2 (by decide)⟩

/-! ### The fetch/execute loop -/

/-- The opcodes that can rewrite the pointer to a jump target. -/
def isJump : Instruction → Bool
  | .Jmp _ => true
  | .Jwz _ _ => true
  | .Jnz _ _ => true
  | .Jwn _ _ => true
  | .Jwp _ _ => true
  | _ => false

theorem execute_nonjump_pointer (i : Instruction) (prog p2 : Program)
    (hi : isJump i = false) (hex : execute i prog = ExecResult.ok p2) :
    p2.pointer = prog.pointer + 1 := by
  cases i <;>
    first
      | exact Bool.noConfusion hi
      | (simp only [execute] at hex
         repeat' split at hex
         all_goals (cases hex <;> rfl))

/-- Once the pointer is at or past the end of the sequence, the loop exits
at once with success, performing zero further dispatches. -/
theorem run_halted (fuel : Nat) (instructions : List Instruction) (prog : Program)
    (h : instructions.length ≤ prog.pointer) :
    run fuel instructions prog = RunResult.ok prog 0 := by
  cases fuel <;> simp [run, not_lt.mpr h]

theorem run_nonjump_aux (instructions : List Instruction)
    (hnj : ∀ i ∈ instructions, isJump i = false) :
    ∀ (fuel : Nat) (prog final : Program) (steps : Nat),
      prog.pointer ≤ instructions.length →
      run fuel instructions prog = RunResult.ok final steps →
      steps = instructions.length - prog.pointer ∧
      final.pointer = instructions.length := by
  intro fuel
  induction fuel with
  | zero =>
      intro prog final steps hle hrun
      by_cases h : prog.pointer < instructions.length
      · simp [run, h] at hrun
      · simp only [run, if_neg h] at hrun
        cases hrun
        omega
  | succ fuel ih =>
      intro prog final steps hle hrun
      by_cases h : prog.pointer < instructions.length
      · simp only [run, dif_pos h] at hrun
        split at hrun
        · rename_i p2 hex
          have hp2 : p2.pointer = prog.pointer + 1 :=
            execute_nonjump_pointer _ prog p2
              (hnj _ (List.get_mem instructions prog.pointer h)) hex
          split at hrun
          · rename_i pf n hrec
            obtain ⟨hsteps, hfinal⟩ := ih p2 pf n (by omega) hrec
            cases hrun
            exact ⟨by omega, hfinal⟩
          · rename_i hne
            exact absurd hrun (by simp_all)
        · cases hrun
        · cases hrun
      · simp only [run, dif_neg h] at hrun
        cases hrun
        omega

/-- C9: a program with no jump instructions that runs without error
executes exactly one dispatch per instruction — each advancing the
pointer by exactly 1 — and halts successfully with the pointer just past
the last instruction (the only normal termination path of the loop). -/
theorem nonjump_run_length (instructions : List Instruction)
    (mem : Memory) (out : List Char) (fuel steps : Nat) (final : Program)
    (hnj : ∀ i ∈ instructions, isJump i = false)
    (hrun : run fuel instructions { memory := mem, pointer := 0, output := out } =
      RunResult.ok final steps) :
    steps = instructions.length ∧
    final.pointer = instructions.length ∧
    (∀ (i : Instruction) (prog p2 : Program), isJump i = false →
      execute i prog = ExecResult.ok p2 → p2.pointer = prog.pointer + 1) := by
  obtain ⟨hsteps, hfinal⟩ := run_nonjump_aux instructions hnj fuel
    { memory := mem, pointer := 0, output := out } final steps
    (Nat.zero_le _) hrun
  exact ⟨by simpa using hsteps, hfinal, fun i prog p2 => execute_nonjump_pointer i prog p2⟩

theorem nonjump_run_length_witness :
    2 = ([Instruction.Set "x" 5, Instruction.Out "x"] : List Instruction).length ∧
    ({ memory := [("x", 5)], pointer := 2, output := ['5', '\n'] } : Program).pointer =
      ([Instruction.Set "x" 5, Instruction.Out "x"] : List Instruction).length ∧
    (∀ (i : Instruction) (prog p2 : Program), isJump i = false →
      execute i prog = ExecResult.ok p2 → p2.pointer = prog.pointer + 1) := by
  exact nonjump_run_length [Instruction.Set "x" 5, Instruction.Out "x"]
    [] [] 2 2 { memory := [("x", 5)], pointer := 2, output := ['5', '\n'] }
    (by decide) (by decide)

/-- `takesJumpTo m i v`: at memory `m`, instruction `i` is a jump that is
taken and whose target register holds `v` — `jmp` unconditionally, the
four conditional branches when their condition register satisfies the
respective test. -/
def takesJumpTo (m : Memory) : Instruction → Int → Prop
  | .Jmp r, v => memGet m r = some v
  | .Jwz r1 r2, v => (∃ c, memGet m r1 = some c ∧ c = 0) ∧ memGet m r2 = some v
  | .Jnz r1 r2, v => (∃ c, memGet m r1 = some c ∧ c ≠ 0) ∧ memGet m r2 = some v
  | .Jwn r1 r2, v => (∃ c, memGet m r1 = some c ∧ c < 0) ∧ memGet m r2 = some v
  | .Jwp r1 r2, v => (∃ c, memGet m r1 = some c ∧ 0 < c) ∧ memGet m r2 = some v
  | _, _ => False

/-- C10: a jump (`jmp`, or a taken conditional branch) whose target value
`v` satisfies `v ≥ 1` but `v - 1 ≥` the instruction count sets the
pointer past the end of the sequence, after which the loop halts
successfully at once: one dispatch, no error — indistinguishable from
normal termination. -/
theorem jump_past_end_halts (fuel : Nat) (instructions : List Instruction)
    (mem : Memory) (out : List Char) (p : Nat) (v : Int)
    (hp : p < instructions.length)
    (htake : takesJumpTo mem (instructions.get ⟨p, hp⟩) v)
    (hv : 1 ≤ v) (hend : instructions.length ≤ (v - 1).toNat) :
    run (fuel + 1) instructions { memory := mem, pointer := p, output := out } =
      RunResult.ok { memory := mem, pointer := (v - 1).toNat, output := out } 1 := by
  have hexec :
      execute (instructions.get ⟨p, hp⟩) { memory := mem, pointer := p, output := out } =
        ExecResult.ok { memory := mem, pointer := (v - 1).toNat, output := out } := by
    cases hi : instructions.get ⟨p, hp⟩ <;> rw [hi] at htake <;>
      simp only [takesJumpTo] at htake
    case Jmp r =>
      simp [execute, htake, not_lt.mpr hv]
    case Jwz r1 r2 =>
      obtain ⟨⟨c, hc, hc0⟩, ht⟩ := htake
      simp [execute, hc, hc0, ht, not_lt.mpr hv]
    case Jnz r1 r2 =>
      obtain ⟨⟨c, hc, hc0⟩, ht⟩ := htake
      simp [execute, hc, hc0, ht, not_lt.mpr hv]
    case Jwn r1 r2 =>
      obtain ⟨⟨c, hc, hc0⟩, ht⟩ := htake
      simp [execute, hc, hc0, ht, not_lt.mpr hv]
    case Jwp r1 r2 =>
      obtain ⟨⟨c, hc, hc0⟩, ht⟩ := htake
      simp [execute, hc, hc0, ht, not_lt.mpr hv]
  have hhalt := run_halted fuel instructions
    { memory := mem, pointer := (v - 1).toNat, output := out } hend
  simp only [run, dif_pos hp, hexec, hhalt]

theorem jump_past_end_halts_witness :
    run 2 [Instruction.Jmp "a"] { memory := [("a", 5)], pointer := 0, output := [] } =
      RunResult.ok { memory := [("a", 5)], pointer := 4, output := [] } 1 := by
  exact jump_past_end_halts 1 [Instruction.Jmp "a"] [("a", 5)] [] 0 5
    (by decide) (by simp [takesJumpTo, memGet]) (by decide) (by decide)

/-! ### Characterizing the register grammar -/

/-- The character class `letter | digit | '_'` of a register name's tail. -/
def isRegChar (c : Char) : Bool :=
  c.isAlphanum || c = '_'

theorem drop_length_takeWhile (p : Char → Bool) (l : List Char) :
    l.drop (l.takeWhile p).length = l.dropWhile p := by
  have h := List.takeWhile_append_dropWhile p l
  calc l.drop (l.takeWhile p).length
      = (l.takeWhile p ++ l.dropWhile p).drop (l.takeWhile p).length := by rw [h]
    _ = l.dropWhile p := List.drop_left _ _

theorem take_length_takeWhile (p : Char → Bool) (l : List Char) :
    l.take (l.takeWhile p).length = l.takeWhile p := by
  have h := List.takeWhile_append_dropWhile p l
  calc l.take (l.takeWhile p).length
      = (l.takeWhile p ++ l.dropWhile p).take (l.takeWhile p).length := by rw [h]
    _ = l.takeWhile p := List.take_left _ _

theorem takeWhile1_eq (p : Char → Bool) (l : List Char) :
    takeWhile1 p l =
      if l.takeWhile p = [] then none else some (l.dropWhile p, l.takeWhile p) := by
  simp only [takeWhile1, drop_length_takeWhile]

theorem dropWhile_dropWhile_of_imp {p q : Char → Bool}
    (hpq : ∀ c, p c = true → q c = true) (l : List Char) :
    (l.dropWhile p).dropWhile q = l.dropWhile q := by
  induction l with
  | nil => rfl
  | cons c cs ih =>
      by_cases hc : p c
      · rw [List.dropWhile_cons_of_pos hc, ih, List.dropWhile_cons_of_pos (hpq c hc)]
      · rw [List.dropWhile_cons_of_neg hc]

theorem isAlpha_isRegChar {c : Char} (h : c.isAlpha = true) : isRegChar c = true := by
  simp [isRegChar, Char.isAlphanum, h]

theorem isAlphanum_isRegChar {c : Char} (h : c.isAlphanum = true) : isRegChar c = true := by
  simp [isRegChar, h]

/-- The loop `many0_count(alt((alphanumeric1, tag("_"))))` consumes
exactly the longest prefix of letters, digits and underscores. -/
theorem many0CountAux_regChar (fuel : Nat) :
    ∀ input : List Char, input.length ≤ fuel →
      ∃ n, many0CountAux (palt alphanumeric1 (ptag "_")) fuel input =
        some (input.dropWhile isRegChar, n) := by
  induction fuel with
  | zero =>
      intro input hle
      have : input = [] := List.eq_nil_of_length_eq_zero (Nat.le_zero.mp hle)
      subst this
      exact ⟨0, rfl⟩
  | succ fuel ih =>
      intro input hle
      cases input with
      | nil => exact ⟨0, rfl⟩
      | cons c cs =>
          simp only [List.length_cons] at hle
          by_cases hc : isRegChar c
          · by_cases ha : c.isAlphanum
            · -- `alphanumeric1` eats the maximal alphanumeric run
              have htw : (c :: cs).takeWhile Char.isAlphanum =
                  c :: cs.takeWhile Char.isAlphanum := List.takeWhile_cons_of_pos ha
              have hstep : palt alphanumeric1 (ptag "_") (c :: cs) =
                  some ((c :: cs).dropWhile Char.isAlphanum,
                        (c :: cs).takeWhile Char.isAlphanum) := by
                simp [palt, alphanumeric1, takeWhile1_eq, htw]
              have hlen : ((c :: cs).dropWhile Char.isAlphanum).length < (c :: cs).length := by
                rw [List.dropWhile_cons_of_pos ha, List.length_cons]
                have h2 : (cs.dropWhile Char.isAlphanum).length ≤ cs.length :=
                  List.Sublist.length_le (List.dropWhile_sublist _)
                omega
              have hlen2 : ((c :: cs).dropWhile Char.isAlphanum).length ≤ fuel := by
                simp only [List.length_cons] at hlen
                omega
              obtain ⟨n, hn⟩ := ih ((c :: cs).dropWhile Char.isAlphanum) hlen2
              refine ⟨n + 1, ?_⟩
              rw [many0CountAux]
              simp only [hstep, if_pos hlen, hn,
                dropWhile_dropWhile_of_imp (fun c h => isAlphanum_isRegChar h)]
            · -- head is `_`: `alphanumeric1` fails, `tag("_")` eats one char
              have hu : c = '_' := by
                simp [isRegChar, ha] at hc
                exact hc
              subst hu
              have htw : List.takeWhile Char.isAlphanum ('_' :: cs) = [] :=
                List.takeWhile_cons_of_neg ha
              have hstep : palt alphanumeric1 (ptag "_") ('_' :: cs) =
                  some (cs, ['_']) := by
                simp [palt, alphanumeric1, takeWhile1_eq, htw, ptag]
              obtain ⟨n, hn⟩ := ih cs (by omega)
              refine ⟨n + 1, ?_⟩
              rw [many0CountAux]
              have hlt : cs.length < ('_' :: cs).length := by
                simp
              simp only [hstep, if_pos hlt, hn, List.dropWhile_cons_of_pos hc]
          · -- head is outside the class: the loop stops
            have ha : c.isAlphanum = false := by
              cases h : c.isAlphanum with
              | true => exact absurd (isAlphanum_isRegChar h) (by simp [hc])
              | false => rfl
            have hu : ¬ (c = '_') := by
              intro h
              exact hc (by simp [isRegChar, h])
            have htw : List.takeWhile Char.isAlphanum (c :: cs) = [] :=
              List.takeWhile_cons_of_neg (by simp [ha])
            have hstep : palt alphanumeric1 (ptag "_") (c :: cs) = none := by
              simp [palt, alphanumeric1, takeWhile1_eq, htw, ptag, hu]
            refine ⟨0, ?_⟩
            rw [many0CountAux]
            simp only [hstep, List.dropWhile_cons_of_neg hc]

/-- C6: the register parser accepts exactly
`letter (letter | digit | '_')*`: on input starting with a letter it
consumes the longest prefix of letters, digits and underscores and
returns it together with the unconsumed remainder; on any other input
(empty, or starting with a digit, underscore or other character) it
fails with no match. -/
theorem register_spec (input : List Char) :
    register input =
      match input with
      | [] => none
      | c :: _ =>
          if c.isAlpha then
            some (input.dropWhile isRegChar, input.takeWhile isRegChar)
          else none := by
  cases input with
  | nil => rfl
  | cons c cs =>
      by_cases ha : c.isAlpha
      · have htw : (c :: cs).takeWhile Char.isAlpha =
            c :: cs.takeWhile Char.isAlpha := List.takeWhile_cons_of_pos ha
        have halpha : alpha1 (c :: cs) =
            some ((c :: cs).dropWhile Char.isAlpha, (c :: cs).takeWhile Char.isAlpha) := by
          simp [alpha1, takeWhile1_eq, htw]
        obtain ⟨n, hn⟩ := many0CountAux_regChar
          ((c :: cs).dropWhile Char.isAlpha).length
          ((c :: cs).dropWhile Char.isAlpha) (le_refl _)
        have hdrop : ((c :: cs).dropWhile Char.isAlpha).dropWhile isRegChar =
            (c :: cs).dropWhile isRegChar :=
          dropWhile_dropWhile_of_imp (fun c h => isAlpha_isRegChar h) _
        have hlens : ((c :: cs).takeWhile isRegChar).length +
            ((c :: cs).dropWhile isRegChar).length = (c :: cs).length := by
          rw [← List.length_append, List.takeWhile_append_dropWhile]
        simp only [register, precognize, ppair, halpha, many0Count, hn, hdrop, if_pos ha]
        have hsub : (c :: cs).length - ((c :: cs).dropWhile isRegChar).length =
            ((c :: cs).takeWhile isRegChar).length := by omega
        rw [hsub, take_length_takeWhile]
      · have halpha : alpha1 (c :: cs) = none := by
          simp [alpha1, takeWhile1_eq, List.takeWhile_cons_of_neg ha]
        simp only [register, precognize, ppair, halpha, if_neg ha]

/-! ### Characterizing the literal grammar -/

/-- Unchecked base-10 accumulation: the mathematical value denoted by a
digit string appended to an accumulator. -/
def intValPos : List Char → Int → Int
  | [], acc => acc
  | c :: cs, acc => intValPos cs (acc * 10 + digitVal c)

/-- Unchecked negative accumulation, mirroring `i32CheckedNeg`. -/
def intValNeg : List Char → Int → Int
  | [], acc => acc
  | c :: cs, acc => intValNeg cs (acc * 10 - digitVal c)

theorem digitVal_nonneg (c : Char) : 0 ≤ digitVal c :=
  Int.ofNat_nonneg _

theorem intValPos_mono : ∀ (digits : List Char) (acc : Int),
    0 ≤ acc → acc ≤ intValPos digits acc := by
  intro digits
  induction digits with
  | nil => intro acc _; exact le_refl _
  | cons c cs ih =>
      intro acc hacc
      have hd := digitVal_nonneg c
      have h2 : acc ≤ acc * 10 + digitVal c := by omega
      exact le_trans h2 (ih _ (by omega))

theorem intValNeg_anti : ∀ (digits : List Char) (acc : Int),
    acc ≤ 0 → intValNeg digits acc ≤ acc := by
  intro digits
  induction digits with
  | nil => intro acc _; exact le_refl _
  | cons c cs ih =>
      intro acc hacc
      have hd := digitVal_nonneg c
      have h2 : acc * 10 - digitVal c ≤ acc := by omega
      exact le_trans (ih _ (by omega)) h2

theorem intValNeg_eq_neg : ∀ (digits : List Char) (acc : Int),
    intValNeg digits (-acc) = -(intValPos digits acc) := by
  intro digits
  induction digits with
  | nil => intro acc; rfl
  | cons c cs ih =>
      intro acc
      show intValNeg cs (-acc * 10 - digitVal c) = -(intValPos cs (acc * 10 + digitVal c))
      have h : -acc * 10 - digitVal c = -(acc * 10 + digitVal c) := by ring
      rw [h, ih]

/-- The per-digit overflow check of the positive loop succeeds exactly
when the final value is in range; the intermediate checks never reject a
digit string whose full value fits, because the accumulated value only
grows. -/
theorem i32CheckedPos_eq : ∀ (digits : List Char) (acc : Int),
    0 ≤ acc → acc ≤ 2147483647 →
    i32CheckedPos digits acc =
      if intValPos digits acc ≤ 2147483647 then some (intValPos digits acc) else none := by
  intro digits
  induction digits with
  | nil =>
      intro acc _ h2
      simp [i32CheckedPos, intValPos, h2]
  | cons c cs ih =>
      intro acc hacc h2
      have hd := digitVal_nonneg c
      show (if 2147483647 < acc * 10 + digitVal c then none
            else i32CheckedPos cs (acc * 10 + digitVal c)) =
        if intValPos cs (acc * 10 + digitVal c) ≤ 2147483647
        then some (intValPos cs (acc * 10 + digitVal c)) else none
      by_cases hover : 2147483647 < acc * 10 + digitVal c
      · have hbig := intValPos_mono cs (acc * 10 + digitVal c) (by omega)
        rw [if_pos hover, if_neg (by omega)]
      · rw [if_neg hover, ih _ (by omega) (by omega)]

/-- The negative-loop analogue: per-digit underflow checks succeed exactly
when the final value is at least `i32::MIN`. -/
theorem i32CheckedNeg_eq : ∀ (digits : List Char) (acc : Int),
    acc ≤ 0 → -2147483648 ≤ acc →
    i32CheckedNeg digits acc =
      if intValNeg digits acc < -2147483648 then none else some (intValNeg digits acc) := by
  intro digits
  induction digits with
  | nil =>
      intro acc _ h2
      simp [i32CheckedNeg, intValNeg, not_lt.mpr h2]
  | cons c cs ih =>
      intro acc hacc h2
      have hd := digitVal_nonneg c
      show (if acc * 10 - digitVal c < -2147483648 then none
            else i32CheckedNeg cs (acc * 10 - digitVal c)) =
        if intValNeg cs (acc * 10 - digitVal c) < -2147483648 then none
        else some (intValNeg cs (acc * 10 - digitVal c))
      by_cases hover : acc * 10 - digitVal c < -2147483648
      · have hsmall := intValNeg_anti cs (acc * 10 - digitVal c) (by omega)
        rw [if_pos hover, if_pos (by omega)]
      · rw [if_neg hover, ih _ (by omega) (by omega)]

theorem isDigit_ne_plus {c : Char} (h : c.isDigit = true) : ¬ (c = '+') := by
  intro he
  subst he
  exact absurd h (by decide)

theorem isDigit_ne_minus {c : Char} (h : c.isDigit = true) : ¬ (c = '-') := by
  intro he
  subst he
  exact absurd h (by decide)

/-- The signed 32-bit literal parser on a digit string with an optional
sign: it consumes the whole string and returns the denoted value exactly
when that value is representable as an `i32`, and errors otherwise. -/
theorem nomI32_spec (digits : List Char) (hne : digits ≠ [])
    (hall : ∀ c ∈ digits, c.isDigit = true) :
    (nomI32 digits =
      if intValPos digits 0 ≤ 2147483647 then some ([], intValPos digits 0) else none) ∧
    (nomI32 ('+' :: digits) =
      if intValPos digits 0 ≤ 2147483647 then some ([], intValPos digits 0) else none) ∧
    (nomI32 ('-' :: digits) =
      if -(intValPos digits 0) < -2147483648 then none
      else some ([], -(intValPos digits 0))) := by
  have htw : digits.takeWhile Char.isDigit = digits :=
    List.takeWhile_eq_self_iff.mpr hall
  have hpos := i32CheckedPos_eq digits 0 (le_refl 0) (by omega)
  have hneg := i32CheckedNeg_eq digits 0 (le_refl 0) (by omega)
  have hneg2 : intValNeg digits 0 = -(intValPos digits 0) := by
    have := intValNeg_eq_neg digits 0
    simpa using this
  rw [hneg2] at hneg
  refine ⟨?_, ?_, ?_⟩
  · cases digits with
    | nil => exact absurd rfl hne
    | cons c cs =>
        have hc := hall c (List.mem_cons_self c cs)
        simp only [nomI32, if_neg (isDigit_ne_plus hc), if_neg (isDigit_ne_minus hc),
          htw, if_neg hne, hpos, List.drop_length]
        by_cases hrange : intValPos (c :: cs) 0 ≤ 2147483647 <;>
          simp [hrange]
  · cases digits with
    | nil => exact absurd rfl hne
    | cons c cs =>
        have hc := hall c (List.mem_cons_self c cs)
        simp only [nomI32, if_pos rfl, htw, if_neg hne, hpos, List.drop_length]
        by_cases hrange : intValPos (c :: cs) 0 ≤ 2147483647 <;>
          simp [htw, hpos, hrange, hc, List.drop_length]
  · cases digits with
    | nil => exact absurd rfl hne
    | cons c cs =>
        have hc := hall c (List.mem_cons_self c cs)
        have hmp : ¬ ('-' = '+') := by decide
        simp only [nomI32, if_neg hmp, if_pos rfl, htw, if_neg hne, hneg, List.drop_length]
        by_cases hrange : -(intValPos (c :: cs) 0) < -2147483648 <;>
          simp [htw, hneg, hrange, hc, List.drop_length]

theorem pAllConsuming_rest {α : Type} (p : NomParser α) (input rest : List Char) (a : α)
    (h : pAllConsuming p input = some (rest, a)) : rest = [] := by
  simp only [pAllConsuming] at h
  split at h
  · cases h; rfl
  · cases h

theorem pmapOpt_some {α β : Type} (p : NomParser α) (f : α → Option β)
    (input rest : List Char) (b : β)
    (h : pmapOpt p f input = some (rest, b)) :
    ∃ a, p input = some (rest, a) ∧ f a = some b := by
  simp only [pmapOpt] at h
  split at h
  · cases h
  · rename_i rest2 a heq
    split at h
    · cases h
    · rename_i b2 heq2
      cases h
      exact ⟨a, heq, heq2⟩

/-- C7: line parsing tries the three instruction shapes in the fixed
order one-register, one-register-plus-value, two-register — a later shape
is consulted exactly when all earlier shapes fail, and the line is a
syntax error when all three fail; every successful parse has consumed the
entire line, so trailing garbage is a syntax error; and the literal-value
grammar accepts an optional sign followed by digits exactly when the
denoted value is representable as a signed 32-bit integer, erroring (not
wrapping) on out-of-range literals. -/
theorem instruction_grammar_spec :
    (∀ (input rest : List Char) (i : Instruction),
      instruction input = some (rest, i) → rest = []) ∧
    (∀ (input : List Char) (r : List Char × Instruction),
      one_register_instruction input = some r →
      instruction input = some r) ∧
    (∀ (input : List Char) (r : List Char × Instruction),
      one_register_instruction input = none →
      one_register_one_value_instruction input = some r →
      instruction input = some r) ∧
    (∀ (input : List Char) (r : List Char × Instruction),
      one_register_instruction input = none →
      one_register_one_value_instruction input = none →
      two_register_instruction input = some r →
      instruction input = some r) ∧
    (∀ input : List Char,
      one_register_instruction input = none →
      one_register_one_value_instruction input = none →
      two_register_instruction input = none →
      instruction input = none) ∧
    (∀ digits : List Char, digits ≠ [] → (∀ c ∈ digits, c.isDigit = true) →
      (nomI32 digits =
        if intValPos digits 0 ≤ 2147483647 then some ([], intValPos digits 0) else none) ∧
      (nomI32 ('+' :: digits) =
        if intValPos digits 0 ≤ 2147483647 then some ([], intValPos digits 0) else none) ∧
      (nomI32 ('-' :: digits) =
        if -(intValPos digits 0) < -2147483648 then none
        else some ([], -(intValPos digits 0)))) := by
  refine ⟨?_, ?_, ?_, ?_, ?_, nomI32_spec⟩
  · intro input rest i h
    simp only [instruction, palt] at h
    split at h
    · rename_i r1 heq
      cases h
      simp only [one_register_instruction] at heq
      obtain ⟨a, ha, _⟩ := pmapOpt_some _ _ _ _ _ heq
      exact pAllConsuming_rest _ _ _ _ ha
    · split at h
      · rename_i r1 heq
        cases h
        simp only [one_register_one_value_instruction] at heq
        obtain ⟨a, ha, _⟩ := pmapOpt_some _ _ _ _ _ heq
        exact pAllConsuming_rest _ _ _ _ ha
      · simp only [two_register_instruction] at h
        obtain ⟨a, ha, _⟩ := pmapOpt_some _ _ _ _ _ h
        exact pAllConsuming_rest _ _ _ _ ha
  · intro input r h
    simp [instruction, palt, h]
  · intro input r h1 h2
    simp [instruction, palt, h1, h2]
  · intro input r h1 h2 h3
    simp [instruction, palt, h1, h2, h3]
  · intro input h1 h2 h3
    simp [instruction, palt, h1, h2, h3]

theorem instruction_grammar_spec_witness :
    instruction ("set x 99".data) = some ([], Instruction.Set "x" 99) ∧
    nomI32 ("2147483648".data) = none ∧
    nomI32 ('-' :: ("2147483648".data)) = some ([], -2147483648) := by
  refine ⟨?_, ?_, ?_⟩
  · exact instruction_grammar_spec.2.2.1 ("set x 99".data)
      ([], Instruction.Set "x" 99) (by decide) (by decide)
  · have h := (instruction_grammar_spec.2.2.2.2.2 ("2147483648".data)
      (by decide) (by decide)).1
    rw [h]
    decide
  · have h := (instruction_grammar_spec.2.2.2.2.2 ("2147483648".data)
      (by decide) (by decide)).2.2
    rw [h]
    decide

end Simply
